import Mathlib

/-!
Verification of the mutinfo-to-position-list normalizer
(`KJA_scripts/generate_mutatex_position_list_from_mutinfo.py`) and of the
position-list filter of `KJA_scripts/ddg2heatmap_wrapper.py`.

Python strings are embedded as lists of characters (`Str`); Python's
single-separator `str.split`, `str.strip`, `str.startswith` are given
structurally recursive Lean counterparts with the same semantics on the
ASCII inputs these scripts handle.  Python's `set` of tuples is embedded as
a duplicate-free list in first-insertion order; `sorted` (a stable sort) is
embedded as `List.insertionSort`, which is stable.  None of the proved
statements depends on the ordering of sort-key ties, which is
implementation-defined in the original (set iteration order).
-/

/-- Python `str` embedded as a list of characters. -/
abbrev Str := List Char

/-- Python `s.split(sep)` for a one-character separator: splits on every
occurrence, keeping empty parts; `"".split(sep) == [""]`. -/
def pySplit (sep : Char) : Str → List Str
  | [] => [[]]
  | c :: cs =>
    if c = sep then [] :: pySplit sep cs
    else
      match pySplit sep cs with
      | [] => [[c]]
      | p :: ps => (c :: p) :: ps

/-- The ASCII whitespace characters stripped by Python `str.strip()`. -/
def isSpaceChar (c : Char) : Bool :=
  c == ' ' || c == '\t' || c == '\n' || c == '\r' || c == '\x0b' || c == '\x0c'

/-- Python `s.strip()`: remove leading and trailing whitespace. -/
def pyStrip (l : Str) : Str :=
  ((l.dropWhile isSpaceChar).reverse.dropWhile isSpaceChar).reverse

/-- Python `line.startswith("#")`. -/
def startsHash : Str → Bool
  | [] => false
  | c :: _ => c == '#'

/-- Python `line.split(",", 1)[0]`: the prefix of the line before the first
comma. -/
def firstField (l : Str) : Str := l.takeWhile (fun c => c != ',')

/-- The parsed position tuple `(wt_aa, chain, resnum_str, resnum_int)`
returned by `_extract_position`.  Note that the fourth dot-separated token
part (the mutant residue) is not a component. -/
structure PosT where
  wt_aa : Str
  chain : Str
  resnum_str : Str
  resnum_int : Nat
deriving DecidableEq, Repr

/-- Value of a non-empty ASCII digit string, as computed by Python `int`. -/
def digitsToNat (ds : Str) : Nat :=
  ds.foldl (fun n c => 10 * n + (c.toNat - 48)) 0

/-- Result of `re.fullmatch(r"(\d+)([A-Z]?)", resnum_str)`: `some` of the
digit group when the whole string is one-or-more digits followed by at most
one uppercase letter, else `none`. -/
def resnumDigits (l : Str) : Option Str :=
  let ds := l.takeWhile Char.isDigit
  let rest := l.dropWhile Char.isDigit
  if ds.isEmpty then none
  else
    match rest with
    | [] => some ds
    | [c] => if c.isUpper then some ds else none
    | _ => none

/-- Result of `re.fullmatch(r"[A-Z]", wt_aa)`: the string is exactly one
uppercase letter. -/
def wtOk : Str → Bool
  | [c] => c.isUpper
  | _ => false

/-- Embedding of `_extract_position(token)`: split the token on `"."`,
require at least three parts `chain, wt_aa, resnum_str` (in that order),
validate `wt_aa` against `[A-Z]` and `resnum_str` against `(\d+)([A-Z]?)`,
and return the tuple `(wt_aa, chain, resnum_str, resnum_int)`; `none` for
malformed tokens. -/
def _extract_position (token : Str) : Option PosT :=
  match pySplit '.' token with
  | chain :: wt_aa :: resnum_str :: _ =>
    if wtOk wt_aa then
      match resnumDigits resnum_str with
      | some ds => some ⟨wt_aa, chain, resnum_str, digitsToNat ds⟩
      | none => none
    else none
  | _ => none

/-- Embedding of `_position_identifier(wt_aa, chain, resnum_str)`:
string concatenation. -/
def _position_identifier (wt_aa chain resnum_str : Str) : Str :=
  wt_aa ++ chain ++ resnum_str

/-- A line is silently skipped when its stripped form is empty or starts
with `#`. -/
def skipLine (t : Str) : Bool := t.isEmpty || startsHash t

/-- The warning text printed for a line whose token fails to parse. -/
def warnLine (t : Str) : Str :=
  ("[WARN] Skipping unrecognised line: ").data ++ t

/-- Accumulation loop of `generate_position_list`: processes the lines in
order, carrying the set of already-seen tuples (embedded as a duplicate-free
list in first-insertion order); returns the accumulated tuples and the
warning messages for unparsable lines. -/
def accAux (seen : List PosT) : List Str → List PosT × List Str
  | [] => (seen, [])
  | l :: ls =>
    let t := pyStrip l
    if skipLine t then accAux seen ls
    else
      match _extract_position (firstField t) with
      | none =>
        let r := accAux seen ls
        (r.1, warnLine t :: r.2)
      | some p => accAux (if p ∈ seen then seen else seen ++ [p]) ls

/-- The accumulation pass of `generate_position_list` over all input lines,
starting from the empty set. -/
def accumulate (lines : List Str) : List PosT × List Str := accAux [] lines

/-- Python `<` on strings: lexicographic comparison by code point. -/
def strLt : Str → Str → Bool
  | _, [] => false
  | [], _ :: _ => true
  | a :: as, b :: bs =>
    if a < b then true
    else if b < a then false
    else strLt as bs

/-- The sort comparison of `generate_position_list`: Python tuple order on
the key `(t[1], t[3]) = (chain, resnum_int)` — chain lexicographically,
then the numeric residue prefix.  The residue-number string (and hence any
insertion-code suffix) is not consulted. -/
def posLe (a b : PosT) : Bool :=
  strLt a.chain b.chain ||
    (decide (a.chain = b.chain) && decide (a.resnum_int ≤ b.resnum_int))

/-- Sorted accumulated tuples: `sorted(positions, key=lambda t: (t[1], t[3]))`,
embedded with the stable `List.insertionSort`. -/
def sorted_positions (lines : List Str) : List PosT :=
  List.insertionSort (fun a b => posLe a b = true) (accumulate lines).1

/-- Embedding of `generate_position_list`: accumulate, sort, and project
each tuple to its identifier string. -/
def generate_position_list (lines : List Str) : List Str :=
  (sorted_positions lines).map (fun t => _position_identifier t.wt_aa t.chain t.resnum_str)

/-- The parse outcome of a single input line: `none` when the line is
skipped (blank or comment) or its first field fails `_extract_position`,
otherwise the parsed tuple.  Collecting `candidate` over the input lines
yields exactly the valid records. -/
def candidate (l : Str) : Option PosT :=
  let t := pyStrip l
  if skipLine t then none
  else _extract_position (firstField t)

/-- The valid records of an input, in line order (with duplicates). -/
def parsedTuples (lines : List Str) : List PosT :=
  lines.filterMap candidate

/-- File content split into lines, as iterating the open file and stripping
each line sees them. -/
def splitLines (content : Str) : List Str := pySplit '\n' content

/-- Output-file content written by `main`:
`"\n".join(position_list) + "\n"`. -/
def renderOutput (ids : List Str) : Str :=
  List.intercalate ('\n' :: []) ids ++ ('\n' :: [])

/-- Embedding of `main` over an abstract filesystem (a map from path to
optional file content).  When the mutinfo path has no file, it aborts with
the error message and leaves the filesystem untouched; otherwise it parses
the content, writes the rendered identifier list to the output path and
reports the number of identifiers written. -/
def main_run (fs : Str → Option Str) (mutinfoPath outputPath : Str) :
    (Str → Option Str) × Except Str Nat :=
  match fs mutinfoPath with
  | none => (fs, Except.error (("mutinfo file not found: ").data ++ mutinfoPath))
  | some content =>
    let ids := generate_position_list (splitLines content)
    (fun p => if p = outputPath then some (renderOutput ids) else fs p,
     Except.ok ids.length)

/-- Non-blank position entries of the position-list file read by
`_filter_positions`: each line stripped, blank results dropped
(`[line.strip() for line in ... if line.strip()]`). -/
def nonblankPositions (lines : List Str) : List Str :=
  (lines.map pyStrip).filter (fun s => !s.isEmpty)

/-- Partition loop of `_filter_positions`: walks the position entries in
order, appending each to `available` when its energy file exists in the
data directory (`isFile`) and to `missing` otherwise. -/
def filterLoop (isFile : Str → Bool) : List Str → List Str × List Str
  | [] => ([], [])
  | p :: ps =>
    let r := filterLoop isFile ps
    if isFile p then (p :: r.1, r.2) else (r.1, p :: r.2)

/-- Embedding of `_filter_positions`: the filtered position list and the
number of removed entries, over an abstract data directory given by the
`isFile` predicate. -/
def _filter_positions (lines : List Str) (isFile : Str → Bool) : List Str × Nat :=
  let r := filterLoop isFile (nonblankPositions lines)
  (r.1, r.2.length)

/-- Spec-side predicate, following the specification's words: a character in
the range `A`–`Z`. -/
def specUpperChar (c : Char) : Prop := 'A' ≤ c ∧ c ≤ 'Z'

/-- Spec-side predicate, following the specification's words: the wild-type
residue field is exactly one uppercase letter `A`–`Z`. -/
def specWtValid (w : Str) : Prop := ∃ ch, w = [ch] ∧ specUpperChar ch

/-- Spec-side predicate, following the specification's words: the residue
number field is one or more digits followed by at most one uppercase
letter. -/
def specResnumValid (n : Str) : Prop :=
  ∃ ds rest, n = ds ++ rest ∧ ds ≠ [] ∧ (∀ c ∈ ds, c.isDigit = true) ∧
    (rest = [] ∨ ∃ ch, rest = [ch] ∧ specUpperChar ch)

/-- Strict comparison on the sort key `(chain, resnum_int)`: chain strictly
smaller lexicographically, or chains equal and numeric residue prefix
strictly smaller. -/
def posLt (a b : PosT) : Prop :=
  List.Lex (· < ·) a.chain b.chain ∨ (a.chain = b.chain ∧ a.resnum_int < b.resnum_int)

/-! ## Properties of the lexicographic string comparison -/

theorem strLt_iff_lex : ∀ a b : Str, strLt a b = true ↔ List.Lex (· < ·) a b := by
  intro a
  induction a with
  | nil =>
    intro b
    cases b with
    | nil =>
      constructor
      · intro h
        simp [strLt] at h
      · intro h
        cases h
    | cons c cs =>
      constructor
      · intro h
        exact List.Lex.nil
      · intro h
        simp [strLt]
  | cons x xs ih =>
    intro b
    cases b with
    | nil =>
      constructor
      · intro h
        simp [strLt] at h
      · intro h
        cases h
    | cons y ys =>
      rcases lt_trichotomy x y with h | h | h
      · constructor
        · intro hl
          exact List.Lex.rel h
        · intro hl
          simp [strLt, h]
      · subst h
        have hx : ¬ x < x := lt_irrefl x
        constructor
        · intro hl
          have hts : strLt xs ys = true := by simpa [strLt, hx] using hl
          exact List.Lex.cons ((ih ys).mp hts)
        · intro hl
          have hts : strLt xs ys = true := by
            cases hl with
            | cons h' => exact (ih ys).mpr h'
            | rel h' => exact absurd h' hx
          simpa [strLt, hx] using hts
      · have hxy : ¬ x < y := lt_asymm h
        constructor
        · intro hl
          exfalso
          simp [strLt, hxy, h] at hl
        · intro hl
          exfalso
          cases hl with
          | cons h' => exact absurd h (lt_irrefl _)
          | rel h' => exact hxy h'

theorem strLt_conn : ∀ a b : Str, strLt a b = false → strLt b a = false → a = b := by
  intro a
  induction a with
  | nil =>
    intro b
    cases b with
    | nil =>
      intro _ _
      rfl
    | cons c cs =>
      intro h _
      simp [strLt] at h
  | cons x xs ih =>
    intro b
    cases b with
    | nil =>
      intro _ h2
      simp [strLt] at h2
    | cons y ys =>
      intro h1 h2
      rcases lt_trichotomy x y with h | h | h
      · simp [strLt, h] at h1
      · subst h
        have e1 : strLt xs ys = false := by simpa [strLt, lt_irrefl] using h1
        have e2 : strLt ys xs = false := by simpa [strLt, lt_irrefl] using h2
        rw [ih ys e1 e2]
      · simp [strLt, h] at h2

theorem strLt_trans : ∀ a b c : Str, strLt a b = true → strLt b c = true → strLt a c = true := by
  intro a
  induction a with
  | nil =>
    intro b c h1 h2
    cases c with
    | nil =>
      cases b with
      | nil => simp [strLt] at h1
      | cons y ys => simp [strLt] at h2
    | cons z zs => simp [strLt]
  | cons x xs ih =>
    intro b c h1 h2
    cases b with
    | nil => simp [strLt] at h1
    | cons y ys =>
      cases c with
      | nil => simp [strLt] at h2
      | cons z zs =>
        rcases lt_trichotomy x y with hxy | hxy | hxy
        · rcases lt_trichotomy y z with hyz | hyz | hyz
          · simp [strLt, lt_trans hxy hyz]
          · subst hyz
            simp [strLt, hxy]
          · simp [strLt, lt_asymm hyz, hyz] at h2
        · subst hxy
          rcases lt_trichotomy x z with hyz | hyz | hyz
          · simp [strLt, hyz]
          · subst hyz
            have e1 : strLt xs ys = true := by simpa [strLt, lt_irrefl] using h1
            have e2 : strLt ys zs = true := by simpa [strLt, lt_irrefl] using h2
            simpa [strLt, lt_irrefl] using ih ys zs e1 e2
          · simp [strLt, lt_asymm hyz, hyz] at h2
        · simp [strLt, lt_asymm hxy, hxy] at h1

/-! ## Properties of the tuple sort comparison -/

theorem posLe_iff {a b : PosT} : posLe a b = true ↔
    (List.Lex (· < ·) a.chain b.chain ∨ (a.chain = b.chain ∧ a.resnum_int ≤ b.resnum_int)) := by
  simp [posLe, Bool.or_eq_true, Bool.and_eq_true, decide_eq_true_eq, strLt_iff_lex]

theorem posLe_total (a b : PosT) : posLe a b = true ∨ posLe b a = true := by
  cases hab : strLt a.chain b.chain with
  | true =>
    left
    simp [posLe, hab]
  | false =>
    cases hba : strLt b.chain a.chain with
    | true =>
      right
      simp [posLe, hba]
    | false =>
      have hc : a.chain = b.chain := strLt_conn _ _ hab hba
      rcases Nat.le_total a.resnum_int b.resnum_int with h | h
      · left
        simp [posLe, hc, h]
      · right
        simp [posLe, hc, h]

theorem posLe_trans {a b c : PosT} (h1 : posLe a b = true) (h2 : posLe b c = true) :
    posLe a c = true := by
  simp only [posLe, Bool.or_eq_true, Bool.and_eq_true, decide_eq_true_eq] at h1 h2 ⊢
  rcases h1 with h1 | ⟨he1, hn1⟩
  · rcases h2 with h2 | ⟨he2, hn2⟩
    · exact Or.inl (strLt_trans _ _ _ h1 h2)
    · rw [he2] at h1
      exact Or.inl h1
  · rcases h2 with h2 | ⟨he2, hn2⟩
    · rw [← he1] at h2
      exact Or.inl h2
    · exact Or.inr ⟨he1.trans he2, Nat.le_trans hn1 hn2⟩

theorem sorted_positions_sorted (lines : List Str) :
    List.Sorted (fun a b => posLe a b = true) (sorted_positions lines) := by
  haveI ht : IsTotal PosT (fun a b => posLe a b = true) := ⟨posLe_total⟩
  haveI htr : IsTrans PosT (fun a b => posLe a b = true) :=
    ⟨fun a b c h1 h2 => posLe_trans h1 h2⟩
  exact List.sorted_insertionSort _ _

theorem sorted_positions_perm (lines : List Str) :
    (sorted_positions lines).Perm (accumulate lines).1 :=
  List.perm_insertionSort _ _

/-! ## Properties of the accumulation pass -/

theorem accAux_fst_mem (ls : List Str) : ∀ (seen : List PosT) (p : PosT),
    p ∈ (accAux seen ls).1 ↔ p ∈ seen ∨ p ∈ parsedTuples ls := by
  induction ls with
  | nil =>
    intro seen p
    simp [accAux, parsedTuples]
  | cons l ls ih =>
    intro seen p
    by_cases hs : skipLine (pyStrip l) = true
    · have hc : candidate l = none := by simp [candidate, hs]
      simp [accAux, hs, parsedTuples, hc, ih]
    · cases hp : _extract_position (firstField (pyStrip l)) with
      | none =>
        have hc : candidate l = none := by simp [candidate, hs, hp]
        simp [accAux, hs, hp, parsedTuples, hc, ih]
      | some q =>
        have hc : candidate l = some q := by simp [candidate, hs, hp]
        by_cases hq : q ∈ seen
        · simp only [accAux, hs, hp, hq, Bool.false_eq_true, if_false, if_true, ite_true,
            ite_false, reduceIte]
          rw [ih]
          simp only [parsedTuples, List.filterMap_cons, hc, List.mem_cons]
          constructor
          · rintro (h | h)
            · exact Or.inl h
            · exact Or.inr (Or.inr h)
          · rintro (h | h | h)
            · exact Or.inl h
            · exact Or.inl (h.symm ▸ hq)
            · exact Or.inr h
        · simp only [accAux, hs, hp, hq, Bool.false_eq_true, if_false, if_true, ite_true,
            ite_false, reduceIte]
          rw [ih]
          simp [parsedTuples, List.filterMap_cons, hc, List.mem_append, or_assoc]

theorem accAux_fst_nodup (ls : List Str) : ∀ seen : List PosT, seen.Nodup →
    (accAux seen ls).1.Nodup := by
  induction ls with
  | nil =>
    intro seen h
    simpa [accAux] using h
  | cons l ls ih =>
    intro seen h
    by_cases hs : skipLine (pyStrip l) = true
    · simpa [accAux, hs] using ih seen h
    · cases hp : _extract_position (firstField (pyStrip l)) with
      | none =>
        simpa [accAux, hs, hp] using ih seen h
      | some q =>
        by_cases hq : q ∈ seen
        · simpa [accAux, hs, hp, hq] using ih seen h
        · have hnd : (seen ++ [q]).Nodup := by
            simp [List.nodup_append, h, hq]
          simpa [accAux, hs, hp, hq] using ih _ hnd

theorem accumulate_fst_mem (lines : List Str) (p : PosT) :
    p ∈ (accumulate lines).1 ↔ p ∈ parsedTuples lines := by
  simpa [accumulate] using accAux_fst_mem lines [] p

theorem accumulate_fst_nodup (lines : List Str) : (accumulate lines).1.Nodup :=
  accAux_fst_nodup lines [] List.nodup_nil

theorem sorted_positions_nodup (lines : List Str) : (sorted_positions lines).Nodup :=
  (sorted_positions_perm lines).symm.nodup (accumulate_fst_nodup lines)

theorem mem_sorted_positions (lines : List Str) (p : PosT) :
    p ∈ sorted_positions lines ↔ p ∈ parsedTuples lines := by
  rw [(sorted_positions_perm lines).mem_iff, accumulate_fst_mem]

/-! ## Claim C6: missing input file aborts without touching the output -/

/-- C6: when the referenced mutinfo file does not exist in the filesystem,
`main` aborts with a descriptive error and the filesystem — in particular
any output file — is left completely unchanged; the output write happens
only in the branch where the input file was found. -/
theorem C6_missing_input_aborts (fs : Str → Option Str) (mutinfoPath outputPath : Str)
    (h : fs mutinfoPath = none) :
    (main_run fs mutinfoPath outputPath).1 = fs ∧
    (main_run fs mutinfoPath outputPath).2 =
      Except.error (("mutinfo file not found: ").data ++ mutinfoPath) := by
  simp [main_run, h]

theorem C6_witness :
    (main_run (fun _ => none) ("flexddg/mutinfo.txt").data ("position_list.txt").data).1 =
      (fun _ => none) ∧
    (main_run (fun _ => none) ("flexddg/mutinfo.txt").data ("position_list.txt").data).2 =
      Except.error (("mutinfo file not found: flexddg/mutinfo.txt").data) := by
  have h := C6_missing_input_aborts (fun _ => none) ("flexddg/mutinfo.txt").data
    ("position_list.txt").data rfl
  refine ⟨h.1, ?_⟩
  rw [h.2]
  exact congrArg Except.error (by decide)

/-! ## Claim C9: the heat-map wrapper's position filtering -/

theorem filterLoop_eq (isFile : Str → Bool) : ∀ l : List Str,
    filterLoop isFile l = (l.filter isFile, l.filter (fun p => !(isFile p))) := by
  intro l
  induction l with
  | nil => simp [filterLoop]
  | cons p ps ih =>
    cases hf : isFile p with
    | true => simp [filterLoop, ih, hf, List.filter_cons]
    | false => simp [filterLoop, ih, hf, List.filter_cons]

/-- C9: the filtered position list passed on by `_filter_positions` is
exactly the non-blank entries of the position file whose energy file exists
in the data directory, in their original order (a `filter` of the entry
list, hence a sublist), and the reported removed count is the number of
non-blank entries whose energy file is missing. -/
theorem C9_filtered_positions (lines : List Str) (isFile : Str → Bool) :
    (_filter_positions lines isFile).1 = (nonblankPositions lines).filter isFile ∧
    (_filter_positions lines isFile).1.Sublist (nonblankPositions lines) ∧
    (_filter_positions lines isFile).2 =
      ((nonblankPositions lines).filter (fun p => !(isFile p))).length := by
  refine ⟨?_, ?_, ?_⟩ <;> simp [_filter_positions, filterLoop_eq, List.filter_sublist]

/-! ## Claim C10: input with no valid records still writes a single newline -/

/-- C10: when the mutinfo file exists but every line is blank, a comment or
unparsable, `main` still succeeds: the output file is written with content
exactly one newline character and the reported identifier count is 0. -/
theorem C10_no_valid_records (fs : Str → Option Str) (mutinfoPath outputPath content : Str)
    (hc : fs mutinfoPath = some content)
    (hnone : ∀ l ∈ splitLines content, candidate l = none) :
    (main_run fs mutinfoPath outputPath).1 outputPath = some ('\n' :: []) ∧
    (main_run fs mutinfoPath outputPath).2 = Except.ok 0 := by
  have hpt : parsedTuples (splitLines content) = [] := by
    rw [parsedTuples, List.filterMap_eq_nil_iff]
    exact hnone
  have hacc : (accumulate (splitLines content)).1 = [] := by
    apply List.eq_nil_iff_forall_not_mem.mpr
    intro p hp
    rw [accumulate_fst_mem, hpt] at hp
    simp at hp
  have hgen : generate_position_list (splitLines content) = [] := by
    simp [generate_position_list, sorted_positions, hacc, List.insertionSort]
  constructor
  · simp [main_run, hc, hgen, renderOutput, List.intercalate]
  · simp [main_run, hc, hgen]

theorem C10_witness :
    (main_run
      (fun p => if p = ("mutinfo.txt").data then some ("# comment\n\nA.1.25.A,x").data else none)
      ("mutinfo.txt").data ("out.txt").data).1 ("out.txt").data = some ('\n' :: []) ∧
    (main_run
      (fun p => if p = ("mutinfo.txt").data then some ("# comment\n\nA.1.25.A,x").data else none)
      ("mutinfo.txt").data ("out.txt").data).2 = Except.ok 0 :=
  C10_no_valid_records _ _ _ (("# comment\n\nA.1.25.A,x").data) (by decide) (by decide)

/-! ## Claim C1: deduplication and lines differing only in the mutant residue -/

/-- C1 counterexample: two valid input lines that differ only in the mutant
residue of their first-field token do NOT occupy two distinct accumulation
entries — the accumulation set holds exactly one entry, because the
deduplication key `(wt_aa, chain, resnum_str, resnum_int)` does not include
the mutant residue; one output line is produced. -/
theorem C1_counterexample :
    (accumulate [("A.A.25.A,A-A25A,A25A,A25").data, ("A.A.25.C,A-A25C,A25C,A25").data]).1 =
      [⟨("A").data, ("A").data, ("25").data, 25⟩] ∧
    (accumulate [("A.A.25.A,A-A25A,A25A,A25").data, ("A.A.25.C,A-A25C,A25C,A25").data]).1.length
      ≠ 2 ∧
    generate_position_list [("A.A.25.A,A-A25A,A25A,A25").data, ("A.A.25.C,A-A25C,A25C,A25").data] =
      [("AA25").data] := by
  refine ⟨by decide, by decide, by decide⟩

/-- C1 amended: two valid tokens that agree on chain, wild-type residue and
residue number but differ in the mutant residue parse to the SAME tuple
(the accumulation key omits the mutant residue), so two such lines occupy a
single accumulation entry and project to a single output line. -/
theorem C1_same_entry_when_only_mutant_differs :
    (∀ (tok1 tok2 c w n m1 m2 : Str),
        pySplit '.' tok1 = [c, w, n, m1] → pySplit '.' tok2 = [c, w, n, m2] →
        _extract_position tok1 = _extract_position tok2) ∧
    (∀ (l1 l2 : Str) (p : PosT), candidate l1 = some p → candidate l2 = some p →
        (accumulate [l1, l2]).1 = [p] ∧
        generate_position_list [l1, l2] =
          [_position_identifier p.wt_aa p.chain p.resnum_str]) := by
  constructor
  · intro tok1 tok2 c w n m1 m2 h1 h2
    simp [_extract_position, h1, h2]
  · intro l1 l2 p h1 h2
    have hs1 : skipLine (pyStrip l1) = false := by
      cases hs : skipLine (pyStrip l1) with
      | false => rfl
      | true => simp [candidate, hs] at h1
    have hp1 : _extract_position (firstField (pyStrip l1)) = some p := by
      simpa [candidate, hs1] using h1
    have hs2 : skipLine (pyStrip l2) = false := by
      cases hs : skipLine (pyStrip l2) with
      | false => rfl
      | true => simp [candidate, hs] at h2
    have hp2 : _extract_position (firstField (pyStrip l2)) = some p := by
      simpa [candidate, hs2] using h2
    have hacc : (accumulate [l1, l2]).1 = [p] := by
      simp [accumulate, accAux, hs1, hp1, hs2, hp2]
    refine ⟨hacc, ?_⟩
    simp [generate_position_list, sorted_positions, hacc, List.insertionSort]

theorem C1_witness :
    _extract_position ("A.A.25.A").data = _extract_position ("A.A.25.C").data ∧
    (accumulate [("A.A.25.A,x").data, ("A.A.25.C,y").data]).1 =
      [⟨("A").data, ("A").data, ("25").data, 25⟩] ∧
    generate_position_list [("A.A.25.A,x").data, ("A.A.25.C,y").data] = [("AA25").data] := by
  have h1 := (C1_same_entry_when_only_mutant_differs).1 ("A.A.25.A").data ("A.A.25.C").data
    ("A").data ("A").data ("25").data ("A").data ("C").data (by decide) (by decide)
  have h2 := (C1_same_entry_when_only_mutant_differs).2 ("A.A.25.A,x").data ("A.A.25.C,y").data
    ⟨("A").data, ("A").data, ("25").data, 25⟩ (by decide) (by decide)
  refine ⟨h1, h2.1, ?_⟩
  rw [h2.2]
  decide

/-! ## Claim C7: field order of a well-formed four-part token -/

/-- C7 counterexample: parsing a well-formed four-part token yields only
`(wt_aa, chain, resnum_str, resnum_int)`; the mutant-residue part is
discarded, so parsing `"C.W.25.M"` cannot be said to yield
`mutantResidue = "M"` — its result is identical to that of `"C.W.25.Q"`. -/
theorem C7_counterexample :
    _extract_position ("C.W.25.M").data =
      some ⟨("W").data, ("C").data, ("25").data, 25⟩ ∧
    _extract_position ("C.W.25.M").data = _extract_position ("C.W.25.Q").data := by
  refine ⟨by decide, by decide⟩

/-- C7 amended: for a well-formed four-part token the dot-separated parts
are assigned in the order chain, wild-type residue, residue number — the
parse yields `chain = c`, `wt_aa = w`, `resnum_str = n` (with its numeric
value) — and the fourth part (the mutant residue) is ignored, not part of
the parse result. -/
theorem C7_part_order (tok c w n m ds : Str)
    (h : pySplit '.' tok = [c, w, n, m]) (hw : wtOk w = true)
    (hn : resnumDigits n = some ds) :
    _extract_position tok = some ⟨w, c, n, digitsToNat ds⟩ := by
  simp [_extract_position, h, hw, hn]

theorem C7_witness :
    _extract_position ("C.W.25.M").data =
      some ⟨("W").data, ("C").data, ("25").data, 25⟩ :=
  C7_part_order ("C.W.25.M").data ("C").data ("W").data ("25").data ("M").data ("25").data
    (by decide) (by decide) (by decide)

/-! ## Claim C8: the chain field is never validated -/

/-- C8 counterexample: a token whose first dot-separated part is the empty
string is NOT rejected: `".A.25.A"` parses successfully with an empty
chain, and such a line produces an output entry (identifier `"A25"`). -/
theorem C8_counterexample :
    _extract_position (".A.25.A").data = some ⟨("A").data, [], ("25").data, 25⟩ ∧
    generate_position_list [(".A.25.A,x").data] = [("A25").data] := by
  refine ⟨by decide, by decide⟩

/-- C8 amended: the chain part is accepted without any validation — in
particular a token whose first dot-separated part is empty parses
successfully (with the empty chain) whenever the wild-type and
residue-number parts are valid, and produces an output entry. -/
theorem C8_empty_chain_accepted (tok w n ds : Str) (rest : List Str)
    (h : pySplit '.' tok = [] :: w :: n :: rest) (hw : wtOk w = true)
    (hn : resnumDigits n = some ds) :
    _extract_position tok = some ⟨w, [], n, digitsToNat ds⟩ ∧
    _extract_position tok ≠ none := by
  refine ⟨by simp [_extract_position, h, hw, hn], ?_⟩
  simp [_extract_position, h, hw, hn]

theorem C8_witness :
    _extract_position (".A.25.A").data = some ⟨("A").data, [], ("25").data, 25⟩ ∧
    _extract_position (".A.25.A").data ≠ none :=
  C8_empty_chain_accepted (".A.25.A").data ("A").data ("25").data ("25").data [("A").data]
    (by decide) (by decide) (by decide)

/-! ## Claim C3: the validity condition and non-fatal skipping -/

theorem char_isUpper_iff (c : Char) : c.isUpper = true ↔ specUpperChar c := by
  simp only [Char.isUpper, Bool.and_eq_true, decide_eq_true_eq]
  exact Iff.rfl

theorem char_isDigit_iff (c : Char) : c.isDigit = true ↔ ('0' ≤ c ∧ c ≤ '9') := by
  simp only [Char.isDigit, Bool.and_eq_true, decide_eq_true_eq]
  exact Iff.rfl

theorem upper_not_digit {c : Char} (h : specUpperChar c) : c.isDigit = false := by
  rcases h with ⟨h1, _⟩
  cases hd : c.isDigit with
  | false => rfl
  | true =>
    exfalso
    rcases (char_isDigit_iff c).mp hd with ⟨_, d2⟩
    have hbad : ('A' : Char) ≤ '9' := le_trans h1 d2
    exact absurd hbad (by decide)

theorem takeWhile_append_all {p : Char → Bool} (ds rest : Str) (h : ∀ c ∈ ds, p c = true) :
    (ds ++ rest).takeWhile p = ds ++ rest.takeWhile p := by
  induction ds with
  | nil => simp
  | cons d dt ih =>
    have hd : p d = true := h d (List.mem_cons_self d dt)
    simp [List.takeWhile_cons, hd, ih (fun c hc => h c (List.mem_cons_of_mem d hc))]

theorem dropWhile_append_all {p : Char → Bool} (ds rest : Str) (h : ∀ c ∈ ds, p c = true) :
    (ds ++ rest).dropWhile p = rest.dropWhile p := by
  induction ds with
  | nil => simp
  | cons d dt ih =>
    have hd : p d = true := h d (List.mem_cons_self d dt)
    simp [List.dropWhile_cons, hd, ih (fun c hc => h c (List.mem_cons_of_mem d hc))]

theorem wtOk_iff (w : Str) : wtOk w = true ↔ specWtValid w := by
  cases w with
  | nil => simp [wtOk, specWtValid]
  | cons c cs =>
    cases cs with
    | nil => simp [wtOk, specWtValid, char_isUpper_iff]
    | cons c2 cs2 => simp [wtOk, specWtValid]

theorem resnumDigits_some_iff (n : Str) :
    (∃ ds, resnumDigits n = some ds) ↔ specResnumValid n := by
  constructor
  · rintro ⟨ds, hds⟩
    have hsplit : n.takeWhile Char.isDigit ++ n.dropWhile Char.isDigit = n :=
      List.takeWhile_append_dropWhile Char.isDigit n
    by_cases he : (n.takeWhile Char.isDigit).isEmpty = true
    · simp [resnumDigits, he] at hds
    · cases hr : n.dropWhile Char.isDigit with
      | nil =>
        refine ⟨n.takeWhile Char.isDigit, [], ?_, ?_, ?_, Or.inl rfl⟩
        · have h2 := hsplit
          rw [hr] at h2
          simpa using h2.symm
        · simpa [List.isEmpty_iff] using he
        · intro c hc
          exact List.mem_takeWhile_imp hc
      | cons c rest2 =>
        cases rest2 with
        | nil =>
          cases hu : c.isUpper with
          | false => simp [resnumDigits, he, hr, hu] at hds
          | true =>
            refine ⟨n.takeWhile Char.isDigit, [c], ?_, ?_, ?_,
              Or.inr ⟨c, rfl, (char_isUpper_iff c).mp hu⟩⟩
            · have h2 := hsplit
              rw [hr] at h2
              exact h2.symm
            · simpa [List.isEmpty_iff] using he
            · intro c' hc'
              exact List.mem_takeWhile_imp hc'
        | cons c2 rest3 => simp [resnumDigits, he, hr] at hds
  · rintro ⟨ds, rest, rfl, hne, hds, hrest⟩
    have htake : (ds ++ rest).takeWhile Char.isDigit = ds ++ rest.takeWhile Char.isDigit :=
      takeWhile_append_all ds rest hds
    have hdrop : (ds ++ rest).dropWhile Char.isDigit = rest.dropWhile Char.isDigit :=
      dropWhile_append_all ds rest hds
    have hne' : ds.isEmpty = false := by
      cases ds with
      | nil => exact absurd rfl hne
      | cons d dt => rfl
    rcases hrest with rfl | ⟨ch, rfl, hch⟩
    · simp only [List.takeWhile_nil, List.append_nil] at htake hdrop
      exact ⟨ds, by simp [resnumDigits, htake, hdrop, hne']⟩
    · have hnd : ch.isDigit = false := upper_not_digit hch
      have hu : ch.isUpper = true := (char_isUpper_iff ch).mpr hch
      simp only [List.takeWhile_cons, List.dropWhile_cons, hnd, Bool.false_eq_true, if_false,
        List.takeWhile_nil, List.append_nil, reduceIte] at htake hdrop
      exact ⟨ds, by simp [resnumDigits, htake, hdrop, hne', hu]⟩

/-- C3: a token is rejected by `_extract_position` exactly when it has
fewer than 3 dot-separated parts, or its wild-type part is not exactly one
uppercase letter `A`–`Z`, or its residue-number part is not one-or-more
digits followed by at most one uppercase letter; and a non-blank,
non-comment line whose token is rejected is skipped with a warning naming
the (stripped) line while processing continues with the remaining lines,
whose accumulated positions are unaffected. -/
theorem C3_invalid_token_handling :
    (∀ tok : Str, (pySplit '.' tok).length < 3 → _extract_position tok = none) ∧
    (∀ (tok c w n : Str) (rest : List Str), pySplit '.' tok = c :: w :: n :: rest →
        (_extract_position tok = none ↔ ¬ (specWtValid w ∧ specResnumValid n))) ∧
    (∀ (l : Str) (ls : List Str) (seen : List PosT),
        skipLine (pyStrip l) = false →
        _extract_position (firstField (pyStrip l)) = none →
        accAux seen (l :: ls) =
          ((accAux seen ls).1, warnLine (pyStrip l) :: (accAux seen ls).2)) := by
  refine ⟨?_, ?_, ?_⟩
  · intro tok h
    cases hs : pySplit '.' tok with
    | nil => simp [_extract_position, hs]
    | cons a t1 =>
      cases t1 with
      | nil => simp [_extract_position, hs]
      | cons b t2 =>
        cases t2 with
        | nil => simp [_extract_position, hs]
        | cons c t3 =>
          rw [hs] at h
          simp [List.length_cons] at h
          omega
  · intro tok c w n rest hs
    constructor
    · intro hnone hval
      rcases hval with ⟨hw, hn⟩
      have hw' : wtOk w = true := (wtOk_iff w).mpr hw
      rcases (resnumDigits_some_iff n).mpr hn with ⟨ds, hds⟩
      simp [_extract_position, hs, hw', hds] at hnone
    · intro hval
      cases hw : wtOk w with
      | false => simp [_extract_position, hs, hw]
      | true =>
        cases hds : resnumDigits n with
        | none => simp [_extract_position, hs, hw, hds]
        | some ds =>
          exfalso
          exact hval ⟨(wtOk_iff w).mp hw, (resnumDigits_some_iff n).mp ⟨ds, hds⟩⟩
  · intro l ls seen hskip hparse
    simp [accAux, hskip, hparse]

theorem C3_witness :
    _extract_position ("A.B").data = none ∧
    ¬ (specWtValid ("1").data ∧ specResnumValid ("25").data) ∧
    accAux [] [("A.1.25.A,x").data] =
      ([], [("[WARN] Skipping unrecognised line: A.1.25.A,x").data]) := by
  refine ⟨?_, ?_, ?_⟩
  · exact (C3_invalid_token_handling).1 ("A.B").data (by decide)
  · exact ((C3_invalid_token_handling).2.1 ("A.1.25.A").data ("A").data ("1").data ("25").data
      [("A").data] (by decide)).mp (by decide)
  · have h := (C3_invalid_token_handling).2.2 ("A.1.25.A,x").data [] [] (by decide) (by decide)
    rw [h]
    decide

/-! ## Claim C4: output ordering -/

/-- C4: the output identifiers are the projections of the sorted tuple
list, and that list is sorted primarily by chain in lexicographic order and
secondarily by the numeric residue prefix ascending; the sort key never
consults the residue-number string, hence not any insertion-code suffix. -/
theorem C4_output_sorted (lines : List Str) :
    generate_position_list lines =
      (sorted_positions lines).map (fun t => _position_identifier t.wt_aa t.chain t.resnum_str) ∧
    (sorted_positions lines).Pairwise (fun a b =>
      List.Lex (· < ·) a.chain b.chain ∨
        (a.chain = b.chain ∧ a.resnum_int ≤ b.resnum_int)) := by
  refine ⟨rfl, ?_⟩
  have h := sorted_positions_sorted lines
  exact List.Pairwise.imp (fun hab => posLe_iff.mp hab) h

/-! ## Claim C2: duplicate output lines -/

/-- C2 counterexample: two valid records with distinct parsed tuples can
project to the same identifier text: chains `"B2"`/`"B"` with residue
numbers `"5"`/`"25"` both render `"AB25"`, which then appears on two
output lines. -/
theorem C2_counterexample :
    generate_position_list [("B2.A.5.X").data, ("B.A.25.X").data] =
      [("AB25").data, ("AB25").data] ∧
    ¬ (generate_position_list [("B2.A.5.X").data, ("B.A.25.X").data]).Nodup := by
  refine ⟨by decide, by decide⟩

/-- C2 amended: the output is duplicate-free at the level of the
deduplication key — the sorted accumulated tuples are pairwise distinct —
and each output line is the projection of exactly one such tuple; the
identifier text itself may still appear on more than one line when two
distinct tuples concatenate to the same string. -/
theorem C2_no_duplicate_tuples (lines : List Str) :
    (sorted_positions lines).Nodup ∧
    generate_position_list lines =
      (sorted_positions lines).map (fun t => _position_identifier t.wt_aa t.chain t.resnum_str) :=
  ⟨sorted_positions_nodup lines, rfl⟩

/-! ## Claim C5: determinism and input-order insensitivity -/

theorem strLt_irrefl : ∀ a : Str, strLt a a = false := by
  intro a
  induction a with
  | nil => rfl
  | cons x xs ih => simp [strLt, lt_irrefl, ih]

theorem posLt_asymm {a b : PosT} (h1 : posLt a b) (h2 : posLt b a) : False := by
  rcases h1 with h1 | ⟨he1, hn1⟩ <;> rcases h2 with h2 | ⟨he2, hn2⟩
  · rw [← strLt_iff_lex] at h1 h2
    have hcy := strLt_trans _ _ _ h1 h2
    rw [strLt_irrefl] at hcy
    exact Bool.false_ne_true hcy
  · rw [← strLt_iff_lex] at h1
    rw [he2] at h1
    rw [strLt_irrefl] at h1
    exact Bool.false_ne_true h1
  · rw [← strLt_iff_lex] at h2
    rw [he1] at h2
    rw [strLt_irrefl] at h2
    exact Bool.false_ne_true h2
  · omega

theorem pairwise_posLt_of (l : List PosT) (hs : l.Pairwise (fun a b => posLe a b = true))
    (hnd : l.Nodup)
    (hinj : ∀ p ∈ l, ∀ q ∈ l, p.chain = q.chain → p.resnum_int = q.resnum_int → p = q) :
    l.Pairwise posLt := by
  have hand := hs.and hnd
  exact hand.imp_of_mem (fun {a b} ha hb hab => by
    rcases hab with ⟨hle, hne⟩
    rcases posLe_iff.mp hle with h | ⟨he, hn⟩
    · exact Or.inl h
    · rcases Nat.lt_or_ge a.resnum_int b.resnum_int with h | h
      · exact Or.inr ⟨he, h⟩
      · exact absurd (hinj a ha b hb he (Nat.le_antisymm hn h)) hne)

/-- C5: the normalizer is deterministic — running it on the same input
yields the same output — and, provided the valid records' sort keys
`(chain, resnum_int)` determine the record (pairwise-distinct keys),
permuting the input lines leaves the produced identifier list unchanged. -/
theorem C5_order_insensitive (lines1 lines2 : List Str)
    (hperm : lines1.Perm lines2)
    (hkeys : ∀ p ∈ parsedTuples lines1, ∀ q ∈ parsedTuples lines1,
      p.chain = q.chain → p.resnum_int = q.resnum_int → p = q) :
    generate_position_list lines1 = generate_position_list lines2 ∧
    generate_position_list lines1 = generate_position_list lines1 := by
  have hpt : (parsedTuples lines1).Perm (parsedTuples lines2) := hperm.filterMap candidate
  have hmem : ∀ p : PosT, p ∈ parsedTuples lines2 ↔ p ∈ parsedTuples lines1 :=
    fun p => hpt.mem_iff.symm
  have haccp : ((accumulate lines1).1).Perm ((accumulate lines2).1) := by
    rw [List.perm_ext_iff_of_nodup (accumulate_fst_nodup lines1) (accumulate_fst_nodup lines2)]
    intro a
    rw [accumulate_fst_mem, accumulate_fst_mem, hmem]
  have hsp : (sorted_positions lines1).Perm (sorted_positions lines2) :=
    (sorted_positions_perm lines1).trans (haccp.trans (sorted_positions_perm lines2).symm)
  have hkeys1 : ∀ p ∈ sorted_positions lines1, ∀ q ∈ sorted_positions lines1,
      p.chain = q.chain → p.resnum_int = q.resnum_int → p = q := by
    intro p hp q hq
    rw [mem_sorted_positions] at hp hq
    exact hkeys p hp q hq
  have hkeys2 : ∀ p ∈ sorted_positions lines2, ∀ q ∈ sorted_positions lines2,
      p.chain = q.chain → p.resnum_int = q.resnum_int → p = q := by
    intro p hp q hq
    rw [mem_sorted_positions, hmem] at hp hq
    exact hkeys p hp q hq
  have hpw1 : (sorted_positions lines1).Pairwise posLt :=
    pairwise_posLt_of _ (sorted_positions_sorted lines1) (sorted_positions_nodup lines1) hkeys1
  have hpw2 : (sorted_positions lines2).Pairwise posLt :=
    pairwise_posLt_of _ (sorted_positions_sorted lines2) (sorted_positions_nodup lines2) hkeys2
  haveI : IsAntisymm PosT posLt := ⟨fun a b h1 h2 => (posLt_asymm h1 h2).elim⟩
  have heq : sorted_positions lines1 = sorted_positions lines2 :=
    List.eq_of_perm_of_sorted hsp hpw1 hpw2
  exact ⟨by rw [generate_position_list, generate_position_list, heq], rfl⟩

theorem C5_witness :
    generate_position_list [("B.C.3.D,x").data, ("A.A.25.A,y").data] =
      generate_position_list [("A.A.25.A,y").data, ("B.C.3.D,x").data] :=
  (C5_order_insensitive [("B.C.3.D,x").data, ("A.A.25.A,y").data]
    [("A.A.25.A,y").data, ("B.C.3.D,x").data]
    (List.Perm.swap (("A.A.25.A,y").data) (("B.C.3.D,x").data) [])
    (by decide)).1
